import Mathlib

/-
  Verification development for the UnionWins backend pipeline.

  The relational store is modelled as a Lean list of rows in insertion order
  (SQLite rowid order, which is what an unordered `.first()` query iterates).
  External AI collaborators (OpenAI task creation, polling, classification,
  extraction, JSON repair) are modelled as oracle functions supplied as
  parameters, so every theorem quantifies over all possible external
  behaviour.  Timestamps are integers (seconds); `timedelta(hours=12)` is
  43200 seconds.
-/

namespace UnionWins

/-! ## Data model (src/models.py) -/

/-- A row of the union_wins table (UnionWinDB).  The image_urls column stores
a JSON-encoded list in the source; the JSON round-trip is elided and the list
kept directly, since no pipeline logic ever inspects the encoding. -/
structure UnionWin where
  title : String
  union_name : Option String
  emoji : Option String
  win_types : Option String
  date : String
  url : String
  summary : String
  image_urls : Option (List String)
  status : String
  submitted_by : Option String
deriving DecidableEq

/-- Status of a search request row: pending, processing, completed, failed. -/
inductive SStatus where
  | pending
  | processing
  | completed
  | failed
deriving DecidableEq

/-- A row of the search_requests table (SearchRequestDB). -/
structure SearchRequest where
  id : Nat
  status : SStatus
  response_id : Option String
  date_range : String
  new_wins_found : Nat
  error_message : Option String
  created_at : Int
deriving DecidableEq

/-- db.query(UnionWinDB).filter(UnionWinDB.url == url).first() is not None. -/
def hasUrl (store : List UnionWin) (url : String) : Bool :=
  store.any (fun w => w.url == url)

/-- Number of persisted rows carrying the given url. -/
def countUrl (store : List UnionWin) (url : String) : Nat :=
  store.countP (fun w => w.url == url)

/-! ## SubmissionIngester (src/services/submission_service.py) -/

/-- Errors raised by create_submission: ValueError with a message, or an
unexpected exception re-raised from the persist step. -/
inductive SubErr where
  | valueError (msg : String)
  | unexpectedError
deriving DecidableEq

/-- The "duplicate" signal: ValueError("This URL has already been submitted"),
raised identically by the pre-existence check and by the IntegrityError
handler at persist time. -/
def dupErr : SubErr := .valueError "This URL has already been submitted"

/-- Result of scrape_url_with_openai after its defaulting post-processing:
title, date and summary have had defaults substituted, so they are plain
strings; the call returning None is modelled as Option.none at the call
site in create_submission. -/
structure ScrapedData where
  title : String
  union_name : Option String
  emoji : Option String
  win_types : Option String
  date : String
  summary : String
  image_urls : List String
deriving DecidableEq

/-- The UnionWinDB row built by create_submission from scraped data.
json.dumps of a non-empty image list is kept as the list itself; an empty
list is stored as NULL (Python truthiness of the empty list). -/
def mkSubmission (d : ScrapedData) (url : String) (submitted_by : Option String) : UnionWin :=
  { title := d.title
    union_name := d.union_name
    emoji := d.emoji
    win_types := d.win_types
    date := d.date
    url := url
    summary := d.summary
    image_urls := if d.image_urls = [] then none else some d.image_urls
    status := "pending"
    submitted_by := submitted_by }

/-- create_submission.  `store` is the committed table at the time of the
pre-existence query; `interleaved` are rows committed by concurrent writers
between that query and this session's commit (empty for a sequential call) —
the unique constraint at persist time sees `store ++ interleaved`.  `scrape`
is the outcome of the external extractor (None on failure), `persistGlitch`
models an unexpected non-integrity failure of the commit.  Returns the
committed table after the call together with the result; every error path
has rolled this session back, so the table keeps only the rows that were
committed independently of this call. -/
def create_submission (store interleaved : List UnionWin)
    (scrape : Option ScrapedData) (persistGlitch : Bool)
    (url : String) (submitted_by : Option String) :
    List UnionWin × Except SubErr UnionWin :=
  if hasUrl store url then
    (store ++ interleaved, .error dupErr)
  else
    match scrape with
    | none => (store ++ interleaved, .error (.valueError "Failed to extract information from URL"))
    | some d =>
      let submission := mkSubmission d url submitted_by
      if hasUrl (store ++ interleaved) url then
        (store ++ interleaved, .error dupErr)
      else if persistGlitch then
        (store ++ interleaved, .error .unexpectedError)
      else
        (store ++ interleaved ++ [submission], .ok submission)

/-! ## ResultIngester (src/services/research_service.py) -/

/-- One parsed item of the research output.  A JSON object is modelled as a
record of optional fields (absent keys are none); only the keys the code
reads are kept. -/
structure WinData where
  title : Option String
  union_name : Option String
  emoji : Option String
  date : Option String
  url : Option String
  summary : Option String
deriving DecidableEq

/-- validate_win_data: all of title, date, url, summary present. -/
def validate_win_data (w : WinData) : Bool :=
  w.title.isSome && w.date.isSome && w.url.isSome && w.summary.isSome

/-- check_duplicate_win: a row with this url already exists. -/
def check_duplicate_win (store : List UnionWin) (url : String) : Bool :=
  hasUrl store url

/-- The url key of a parsed item; only read after validate_win_data holds,
so the default is never observed. -/
def winUrl (w : WinData) : String :=
  w.url.getD ""

/-- create_win_from_data.  The UnionWinDB status column defaults to
"approved" for rows created this way. -/
def create_win_from_data (w : WinData) : UnionWin :=
  { title := w.title.getD ""
    union_name := w.union_name
    emoji := some (w.emoji.getD "✊")
    win_types := none
    date := w.date.getD ""
    url := winUrl w
    summary := w.summary.getD ""
    image_urls := none
    status := "approved"
    submitted_by := none }

/-- save_wins_to_db: per-item loop, each insert committed individually.  The
inner uniqueness test at commit time mirrors the IntegrityError handler: a
violated unique constraint rolls back only that insert and the loop
continues with the next item.  Returns the table and the count of rows
actually inserted. -/
def save_wins_to_db (store : List UnionWin) : List WinData → List UnionWin × Nat
  | [] => (store, 0)
  | w :: rest =>
    if validate_win_data w = false then
      save_wins_to_db store rest
    else if check_duplicate_win store (winUrl w) then
      save_wins_to_db store rest
    else
      let nw := create_win_from_data w
      if hasUrl store nw.url then
        save_wins_to_db store rest
      else
        let r := save_wins_to_db (store ++ [nw]) rest
        (r.1, r.2 + 1)

/-- extract_json_from_response, from the strict-parse attempt onward.  The
Python json.loads library call is the oracle `parse`; the GPT repair call
fix_malformed_json (including its own json.loads of the repaired text) is
the oracle `fix`.  The second component counts how many times the repairer
was invoked.  On a strict-parse failure the repairer runs exactly once; if
the repaired text fails to parse, or the repair call itself raises, the
original parse error is re-raised. -/
def extract_json_from_response (parse : String → Except String (List WinData))
    (fix : String → Except String String) (json_text : String) :
    Except String (List WinData) × Nat :=
  match parse json_text with
  | .ok wins => (.ok wins, 0)
  | .error e =>
    match fix json_text with
    | .error _ => (.error e, 1)
    | .ok fixed =>
      match parse fixed with
      | .ok wins => (.ok wins, 1)
      | .error _ => (.error e, 1)

/-! ## TaskOrchestrator: one sweep of process_pending_requests
    (src/main.py, with search_service and update_request_status) -/

/-- update_request_status: sets status and new_wins_found (the latter has a
default of 0 at every error call site); error_message is only overwritten
when the argument is truthy (a non-empty string).  response_id is never
touched. -/
def update_request_status (r : SearchRequest) (status : SStatus)
    (new_wins_found : Nat) (error_message : Option String) : SearchRequest :=
  { r with
    status := status
    new_wins_found := new_wins_found
    error_message :=
      match error_message with
      | some m => if m = "" then r.error_message else some m
      | none => r.error_message }

/-- The environment of one sweep: the wall clock and the external calls it
may make.  createTask is create_background_task composed with the
deterministic prompt formatter create_research_input, so it is indexed by
the request's date_range; poll is poll_task_status (OpenAI status string and
output text); processResults is process_research_results on the output text
(count of new wins, or the exception it raises).  Except.error models a
raised exception. -/
structure SweepEnv where
  now : Int
  createTask : String → Except String String
  poll : String → Except String (String × Option String)
  processResults : String → Except String Nat

/-- Stuck-task bound: timedelta(hours=12) in seconds. -/
def stuckTaskBound : Int := 43200

/-- The timeout-tagged error message written by the stuck-task path. -/
def timeoutMessage (elapsed : Int) : String :=
  "Task timeout after " ++ (toString elapsed ++ ". OpenAI response may have failed.")

/-- get_pending_requests: filter(status == "pending").first() — the first
pending row in rowid (insertion) order, as an index. -/
def firstPendingIdx : List SearchRequest → Option Nat
  | [] => none
  | r :: rest =>
    if r.status = .pending then some 0
    else (firstPendingIdx rest).map (· + 1)

/-- The claim step's decision: the index of the claimed request together
with the external task handle, when a pending request exists and
create_background_task succeeds; none otherwise. -/
def claimDecision (env : SweepEnv) (reqs : List SearchRequest) : Option (Nat × String) :=
  match firstPendingIdx reqs with
  | none => none
  | some j =>
    match reqs[j]? with
    | none => none
    | some p =>
      match env.createTask p.date_range with
      | .ok rid => some (j, rid)
      | .error _ => none

/-- The claim step: on success, one persisted update sets status=processing
and response_id together on the claimed row; on failure (no pending row, or
create_background_task raising) the table is rolled back unchanged. -/
def applyClaim (env : SweepEnv) (reqs : List SearchRequest) : List SearchRequest :=
  match claimDecision env reqs with
  | none => reqs
  | some (j, rid) =>
    match reqs[j]? with
    | none => reqs
    | some p => reqs.set j { p with status := .processing, response_id := some rid }

/-- The poll phase for one processing request with a handle: the stuck-task
timeout check runs first and forces failed without consulting the external
service; otherwise the external status is polled, a completed task is
ingested (ingestion failure flips the request to failed with the ingestion
error), a failed task gets the generic message, anything else — including a
raised polling exception — leaves the row unchanged. -/
def pollStep (env : SweepEnv) (r : SearchRequest) : SearchRequest :=
  if stuckTaskBound < env.now - r.created_at then
    update_request_status r .failed 0 (some (timeoutMessage (env.now - r.created_at)))
  else
    match env.poll (r.response_id.getD "") with
    | .error _ => r
    | .ok (status, output_text) =>
      if status = "completed" then
        match env.processResults (output_text.getD "") with
        | .ok n => update_request_status r .completed n none
        | .error e => update_request_status r .failed 0 (some e)
      else if status = "failed" then
        update_request_status r .failed 0 (some "OpenAI research task failed")
      else r

/-- One sweep of the background polling loop: the claim step, then the poll
pass over every row that is processing with a non-null response_id
(get_processing_requests runs after the claim, so a just-claimed request is
polled in the same sweep). -/
def sweep (env : SweepEnv) (reqs : List SearchRequest) : List SearchRequest :=
  (applyClaim env reqs).map (fun r =>
    if r.status = .processing ∧ r.response_id ≠ none then pollStep env r else r)

/-- Run a sequence of sweeps, each under its own environment. -/
def runSweeps : List SweepEnv → List SearchRequest → List SearchRequest
  | [], reqs => reqs
  | env :: rest, reqs => runSweeps rest (sweep env reqs)

/-- The row at index i is currently in status processing. -/
def isProcessingAt (reqs : List SearchRequest) (i : Nat) : Bool :=
  match reqs[i]? with
  | some r => r.status == .processing
  | none => false

/-- The sweep under env claims the row at index i (a successful
handle-acquisition that moves it into processing). -/
def claimedAt (env : SweepEnv) (reqs : List SearchRequest) (i : Nat) : Bool :=
  match claimDecision env reqs with
  | some (j, _) => j == i
  | none => false

/-- The row at index i is in status processing at some point of the run:
at a sweep boundary, or at the moment a claim step moves it to processing
mid-sweep. -/
def everProcessing : List SweepEnv → List SearchRequest → Nat → Bool
  | [], reqs, i => isProcessingAt reqs i
  | env :: rest, reqs, i =>
    isProcessingAt reqs i || claimedAt env reqs i ||
      everProcessing rest (sweep env reqs) i

/-- No row is in status processing with a null response_id. -/
def handleInvariant (reqs : List SearchRequest) : Bool :=
  reqs.all (fun r => r.status != .processing || r.response_id.isSome)

/-- handleInvariant holds at every sweep boundary of the run. -/
def alwaysHandleInvariant : List SweepEnv → List SearchRequest → Bool
  | [], reqs => handleInvariant reqs
  | env :: rest, reqs =>
    handleInvariant reqs && alwaysHandleInvariant rest (sweep env reqs)

/-! ## Scheduler (src/services/scheduler.py, start_scheduler) -/

/-- The search-request interval: IntervalTrigger(hours=12), in seconds. -/
def searchInterval : Int := 43200

/-- order_by(created_at.desc()).first() on the search_requests table: the
most recent created_at, when any row exists. -/
def lastSearchCreatedAt (reqs : List SearchRequest) : Option Int :=
  (reqs.map (fun r => r.created_at)).max?

/-- The next_run_time start_scheduler computes for the twelve_hour_search
job: last search at t gives t + 12h, pushed to now + 12h only when t + 12h
has already passed; no prior search gives now + 12h. -/
def start_scheduler_next_run (lastCreated : Option Int) (now : Int) : Int :=
  match lastCreated with
  | some t =>
    let next_run := t + searchInterval
    if next_run ≤ now then now + searchInterval else next_run
  | none => now + searchInterval

/-- Modelled from the spec sentence under test (the claimed restart law):
next enqueue at max(T + 12h, now + 12h) when a prior request exists, else
now + 12h. -/
def nextRunClaimedSpec (lastCreated : Option Int) (now : Int) : Int :=
  match lastCreated with
  | some t => max (t + searchInterval) (now + searchInterval)
  | none => now + searchInterval

/-- The amended restart law: T + 12h when that instant is still in the
future, otherwise now + 12h; else now + 12h with no prior request. -/
def nextRunAmendedSpec (lastCreated : Option Int) (now : Int) : Int :=
  match lastCreated with
  | some t => if now < t + searchInterval then t + searchInterval else now + searchInterval
  | none => now + searchInterval

/-! ## CandidateExtractor and classifier filter
    (src/services/scraping_service.py) -/

/-- A link candidate: absolute url, link text, surrounding context. -/
structure Candidate where
  url : String
  text : String
  context : String
deriving DecidableEq

/-- An anchor element of the parsed page, as BeautifulSoup hands it to the
loop: its href, its stripped text, the (alt, title) attributes of a nested
img when one exists, and the stripped text of its parent element. -/
structure Anchor where
  href : String
  text : String
  img : Option (Option String × Option String)
  parentText : Option String

/-- Python string truthiness of an optional attribute: None and the empty
string are both falsy. -/
def truthyStr (o : Option String) : Option String :=
  match o with
  | some s => if s = "" then none else some s
  | none => none

/-- full_url.split(given the fragment marker)[0]: the prefix before the
first hash character. -/
def stripFragment (s : String) : String :=
  String.mk (s.toList.takeWhile (fun c => c ≠ '#'))

/-- The skip_keywords list of extract_candidates. -/
def skip_keywords : List String :=
  ["/login", "/register", "/signin", "/signup",
   "/contact", "/about", "/privacy", "/terms",
   "/search", "/join", "/member", "javascript:", "mailto:"]

/-- Python's substring containment (k in s) over character lists. -/
def charsContain (pat : List Char) : List Char → Bool
  | [] => pat.isEmpty
  | c :: rest => pat.isPrefixOf (c :: rest) || charsContain pat rest

/-- full_url.startswith(pre), over character lists. -/
def strStartsWith (s pre : String) : Bool :=
  pre.toList.isPrefixOf s.toList

/-- full_url.lower(): character-wise ASCII lowering, over character lists. -/
def strLower (s : String) : String :=
  String.mk (s.toList.map Char.toLower)

/-- any(k in lower_url for k in skip_keywords). -/
def containsSkipKeyword (lower_url : String) : Bool :=
  skip_keywords.any (fun k => charsContain k.toList lower_url.toList)

/-- The link text of an anchor with the nested-image fallback: empty anchor
text falls back to the img alt, then the img title, then the empty string. -/
def anchorText (a : Anchor) : String :=
  if a.text = "" then
    match a.img with
    | some (alt, title) => ((truthyStr alt).orElse (fun _ => truthyStr title)).getD ""
    | none => a.text
  else a.text

/-- The context of a candidate: the parent element's stripped text truncated
to 300 characters, empty when the anchor has no parent. -/
def anchorContext (a : Anchor) : String :=
  match a.parentText with
  | some p => String.mk (p.toList.take 300)
  | none => ""

/-- The body of the extract_candidates loop over anchors, carrying the
seen_urls set.  urljoin (Python's urllib resolution against the base) is an
oracle. -/
def extractLoop (urljoin : String → String → String) (base_url : String) :
    List Anchor → List String → List Candidate
  | [], _ => []
  | a :: rest, seen =>
    let full_url := stripFragment (urljoin base_url a.href)
    if full_url ∈ seen then
      extractLoop urljoin base_url rest seen
    else if ¬ strStartsWith full_url "http" then
      extractLoop urljoin base_url rest seen
    else if containsSkipKeyword (strLower full_url) then
      extractLoop urljoin base_url rest seen
    else
      let text := anchorText a
      if text.length < 5 then
        extractLoop urljoin base_url rest seen
      else
        { url := full_url, text := text, context := anchorContext a } ::
          extractLoop urljoin base_url rest (full_url :: seen)

/-- extract_candidates over the anchors of the parsed page. -/
def extract_candidates (urljoin : String → String → String) (base_url : String)
    (anchors : List Anchor) : List Candidate :=
  extractLoop urljoin base_url anchors []

/-- The classifier batch size. -/
def batchSize : Nat := 20

/-- The inner loop over relevant_ids for one batch: an id is used only when
0 <= rid < len(batch); anything else is ignored.  Ids are Python ints, so
they may be negative. -/
def selectByIds (batch : List Candidate) (relevant_ids : List Int) : List Candidate :=
  List.foldl (fun acc rid =>
    if 0 ≤ rid ∧ rid < (batch.length : Int) then
      acc ++ (batch[rid.toNat]?).toList
    else acc) [] relevant_ids

/-- The batch loop of filter_candidates_with_llm: classify each batch of 20;
a batch whose classifier call raises is skipped and the loop continues.  The
fuel argument bounds the recursion (the caller passes the list length, which
is always enough since each round consumes a non-empty prefix). -/
def filterBatchesAux (classify : List Candidate → Except String (List Int)) :
    Nat → List Candidate → List Candidate
  | _, [] => []
  | 0, _ => []
  | fuel + 1, l =>
    (match classify (l.take batchSize) with
     | .ok ids => selectByIds (l.take batchSize) ids
     | .error _ => []) ++ filterBatchesAux classify fuel (l.drop batchSize)

/-- filter_candidates_with_llm, with the external classifier as an oracle
returning the relevant_ids list (or raising). -/
def filter_candidates_with_llm (classify : List Candidate → Except String (List Int))
    (candidates : List Candidate) : List Candidate :=
  filterBatchesAux classify candidates.length candidates

/-! ## Concrete sample data for the closed instance theorems -/

/-- A sample extractor result. -/
def exScraped : ScrapedData :=
  { title := "Union Win", union_name := some "GMB", emoji := some "✊",
    win_types := none, date := "2025-06-01", summary := "A victory.", image_urls := [] }

/-- A sample submitted URL. -/
def exUrl : String := "https://example.org/win"

/-- A sample parsed research item. -/
def exWinA : WinData :=
  { title := some "A", union_name := none, emoji := none,
    date := some "2025-06-01", url := some "https://example.org/a", summary := some "sa" }

/-- A second sample parsed research item with a different url. -/
def exWinB : WinData :=
  { title := some "B", union_name := none, emoji := none,
    date := some "2025-06-02", url := some "https://example.org/b", summary := some "sb" }

/-- A persisted row sharing the url of exWinB. -/
def exRecB : UnionWin := create_win_from_data exWinB

/-- A sweep environment whose task creation succeeds and whose poll reports
the task still queued. -/
def exEnvClaim : SweepEnv :=
  { now := 0, createTask := fun _ => .ok "resp-1",
    poll := fun _ => .ok ("queued", none),
    processResults := fun _ => .ok 0 }

/-- A sweep environment whose task creation fails and whose poll would
report completion. -/
def exEnvPoll : SweepEnv :=
  { now := 100000, createTask := fun _ => .error "no task",
    poll := fun _ => .ok ("completed", some "out"),
    processResults := fun _ => .ok 5 }

/-- A freshly created pending search request. -/
def exReqPending : SearchRequest :=
  { id := 1, status := .pending, response_id := none, date_range := "June",
    new_wins_found := 0, error_message := none, created_at := 0 }

/-- A second pending search request created later. -/
def exReqPending2 : SearchRequest :=
  { id := 2, status := .pending, response_id := none, date_range := "July",
    new_wins_found := 0, error_message := none, created_at := 7200 }

/-- A processing request with a handle, created at time 0. -/
def exReqStuck : SearchRequest :=
  { id := 3, status := .processing, response_id := some "resp-9", date_range := "June",
    new_wins_found := 0, error_message := none, created_at := 0 }

/-- A sample anchor carrying an acceptable article link. -/
def exAnchor : Anchor :=
  { href := "https://b.org/w1", text := "Union wins big",
    img := none, parentText := some "ctx" }

end UnionWins

namespace UnionWins

/-! # Orchestrator sweep lemmas -/

theorem update_request_status_response_id (r : SearchRequest) (st : SStatus)
    (n : Nat) (msg : Option String) :
    (update_request_status r st n msg).response_id = r.response_id := by
  unfold update_request_status
  rfl

theorem update_request_status_status (r : SearchRequest) (st : SStatus)
    (n : Nat) (msg : Option String) :
    (update_request_status r st n msg).status = st := by
  unfold update_request_status
  rfl

theorem pollStep_response_id (env : SweepEnv) (r : SearchRequest) :
    (pollStep env r).response_id = r.response_id := by
  unfold pollStep
  repeat' split
  all_goals rfl

theorem pollStep_status_ne_pending (env : SweepEnv) (r : SearchRequest)
    (h : r.status = .processing) : (pollStep env r).status ≠ .pending := by
  unfold pollStep
  repeat' split
  all_goals first
    | (rw [update_request_status_status]; decide)
    | (rw [h]; decide)

theorem sweepMap_response_id (env : SweepEnv) (r : SearchRequest) :
    (if r.status = .processing ∧ r.response_id ≠ none then pollStep env r else r).response_id
      = r.response_id := by
  split
  · exact pollStep_response_id env r
  · rfl

theorem sweepMap_pending_iff (env : SweepEnv) (r : SearchRequest) :
    ((if r.status = .processing ∧ r.response_id ≠ none then pollStep env r else r).status
        = .pending)
      ↔ r.status = .pending := by
  split
  · rename_i hguard
    constructor
    · intro hp
      exact absurd hp (pollStep_status_ne_pending env r hguard.1)
    · intro hp
      rw [hguard.1] at hp
      cases hp
  · exact Iff.rfl

theorem firstPendingIdx_spec :
    ∀ (reqs : List SearchRequest) (j : Nat), firstPendingIdx reqs = some j →
      ∃ p, reqs[j]? = some p ∧ p.status = .pending ∧
        ∀ k, k < j → ∀ q, reqs[k]? = some q → q.status ≠ .pending := by
  intro reqs
  induction reqs with
  | nil =>
    intro j h
    simp [firstPendingIdx] at h
  | cons r rest ih =>
    intro j h
    simp only [firstPendingIdx] at h
    by_cases hr : r.status = .pending
    · rw [if_pos hr] at h
      cases h
      exact ⟨r, by simp, hr, fun k hk q hq => absurd hk (Nat.not_lt_zero k)⟩
    · rw [if_neg hr] at h
      cases hrest : firstPendingIdx rest with
      | none =>
        rw [hrest] at h
        cases h
      | some j0 =>
        rw [hrest] at h
        obtain ⟨p, hp, hpend, hmin⟩ := ih j0 hrest
        have hj : j = j0 + 1 := (Option.some.inj h).symm
        subst hj
        refine ⟨p, ?_, hpend, ?_⟩
        · rw [List.getElem?_cons_succ]
          exact hp
        · intro k hk q hq
          cases k with
          | zero =>
            simp only [List.getElem?_cons_zero, Option.some.injEq] at hq
            rw [← hq]
            exact hr
          | succ k0 =>
            rw [List.getElem?_cons_succ] at hq
            apply hmin k0 ?_ q hq
            omega

theorem claimDecision_some (env : SweepEnv) (reqs : List SearchRequest)
    (j : Nat) (rid : String) (h : claimDecision env reqs = some (j, rid)) :
    ∃ p, reqs[j]? = some p ∧ p.status = .pending ∧ firstPendingIdx reqs = some j ∧
      env.createTask p.date_range = .ok rid := by
  unfold claimDecision at h
  cases hf : firstPendingIdx reqs with
  | none => simp [hf] at h
  | some j0 =>
    simp only [hf] at h
    cases hp : reqs[j0]? with
    | none => simp [hp] at h
    | some p =>
      simp only [hp] at h
      cases hc : env.createTask p.date_range with
      | ok rid0 =>
        simp only [hc, Option.some.injEq, Prod.mk.injEq] at h
        obtain ⟨h1, h2⟩ := h
        subst h1
        subst h2
        obtain ⟨p2, hp2, hpend, _⟩ := firstPendingIdx_spec reqs j0 hf
        rw [hp] at hp2
        exact ⟨p, hp, by rw [Option.some.inj hp2]; exact hpend, rfl, hc⟩
      | error e => simp [hc] at h

theorem applyClaim_length (env : SweepEnv) (reqs : List SearchRequest) :
    (applyClaim env reqs).length = reqs.length := by
  unfold applyClaim
  cases hd : claimDecision env reqs with
  | none => rfl
  | some jr =>
    obtain ⟨j, rid⟩ := jr
    cases hp : reqs[j]? with
    | none => simp [hp]
    | some p => simp [hp, List.length_set]

theorem sweep_length (env : SweepEnv) (reqs : List SearchRequest) :
    (sweep env reqs).length = reqs.length := by
  unfold sweep
  rw [List.length_map]
  exact applyClaim_length env reqs

theorem runSweeps_length :
    ∀ (envs : List SweepEnv) (reqs : List SearchRequest),
      (runSweeps envs reqs).length = reqs.length := by
  intro envs
  induction envs with
  | nil =>
    intro reqs
    rfl
  | cons env rest ih =>
    intro reqs
    rw [runSweeps, ih (sweep env reqs), sweep_length]

theorem applyClaim_getElem?_ne (env : SweepEnv) (reqs : List SearchRequest) (i : Nat)
    (h : ∀ rid, claimDecision env reqs ≠ some (i, rid)) :
    (applyClaim env reqs)[i]? = reqs[i]? := by
  unfold applyClaim
  cases hd : claimDecision env reqs with
  | none => rfl
  | some jr =>
    obtain ⟨j, rid⟩ := jr
    have hne : j ≠ i := by
      intro he
      subst he
      exact h rid hd
    cases hj : reqs[j]? with
    | none => simp [hj]
    | some p => simp [hj, List.getElem?_set_ne hne]

theorem applyClaim_getElem?_claimed (env : SweepEnv) (reqs : List SearchRequest)
    (j : Nat) (rid : String) (p : SearchRequest)
    (hd : claimDecision env reqs = some (j, rid)) (hp : reqs[j]? = some p) :
    (applyClaim env reqs)[j]?
      = some { p with status := .processing, response_id := some rid } := by
  unfold applyClaim
  rw [hd]
  simp only [hp]
  apply List.getElem?_set_self
  exact (List.getElem?_eq_some.mp hp).1

end UnionWins

namespace UnionWins

/-! # Store lemmas -/

theorem hasUrl_append (a b : List UnionWin) (u : String) :
    hasUrl (a ++ b) u = (hasUrl a u || hasUrl b u) := by
  simp [hasUrl, List.any_append]

theorem countUrl_append (a b : List UnionWin) (u : String) :
    countUrl (a ++ b) u = countUrl a u + countUrl b u := by
  simp [countUrl, List.countP_append]

theorem countUrl_eq_zero (s : List UnionWin) (u : String) (h : hasUrl s u = false) :
    countUrl s u = 0 := by
  rw [countUrl, List.countP_eq_zero]
  intro w hw
  simp only [hasUrl, List.any_eq_false] at h
  exact h w hw

theorem hasUrl_of_countUrl_one (s : List UnionWin) (u : String) (h : countUrl s u = 1) :
    hasUrl s u = true := by
  rw [hasUrl, List.any_eq_true]
  have hpos : 0 < s.countP (fun w => w.url == u) := by
    rw [countUrl] at h; omega
  obtain ⟨w, hw, hp⟩ := List.countP_pos_iff.mp hpos
  exact ⟨w, hw, hp⟩

/-! # C1 and C10: SubmissionIngester -/

/-- Claim C1: submitting the same URL twice through create_submission,
sequentially or concurrently, leaves exactly one persisted row for that URL,
and the second call fails with the "duplicate" error — raised by the
pre-existence check in the sequential case and by the storage-level
uniqueness violation (converted to the same signal) when a concurrent
submitter committed the URL between this call's pre-check and its persist
step. -/
theorem create_submission_idempotent
    (store : List UnionWin) (url : String) (d d2 : ScrapedData)
    (sb sb2 : Option String) (h0 : hasUrl store url = false) :
    (∀ s1 w, create_submission store [] (some d) false url sb = (s1, .ok w) →
        countUrl s1 url = 1 ∧
        (create_submission s1 [] (some d2) false url sb2).2 = .error dupErr ∧
        countUrl (create_submission s1 [] (some d2) false url sb2).1 url = 1) ∧
    (∀ interleaved, countUrl interleaved url = 1 →
        (create_submission store interleaved (some d) false url sb).2 = .error dupErr ∧
        countUrl (create_submission store interleaved (some d) false url sb).1 url = 1) := by
  constructor
  · intro s1 w hok
    have h2 : hasUrl (store ++ []) url = false := by simpa using h0
    have hrun : create_submission store [] (some d) false url sb
        = (store ++ [] ++ [mkSubmission d url sb], .ok (mkSubmission d url sb)) := by
      simp [create_submission, h0, h2]
    rw [hrun] at hok
    have hs1 : s1 = store ++ [] ++ [mkSubmission d url sb] := by
      cases hok; rfl
    have hcount : countUrl s1 url = 1 := by
      rw [hs1, countUrl_append, countUrl_append, countUrl_eq_zero store url h0]
      simp [countUrl, mkSubmission]
    have hdup : hasUrl s1 url = true := by
      rw [hs1, hasUrl_append, hasUrl_append]
      simp [hasUrl, mkSubmission]
    have hrun2 : create_submission s1 [] (some d2) false url sb2
        = (s1 ++ [], .error dupErr) := by
      simp [create_submission, hdup]
    refine ⟨hcount, ?_, ?_⟩
    · rw [hrun2]
    · rw [hrun2]
      simpa [countUrl_append] using hcount
  · intro interleaved hone
    have hdup2 : hasUrl (store ++ interleaved) url = true := by
      rw [hasUrl_append, hasUrl_of_countUrl_one interleaved url hone, Bool.or_true]
    have hrun : create_submission store interleaved (some d) false url sb
        = (store ++ interleaved, .error dupErr) := by
      simp [create_submission, h0, hdup2]
    refine ⟨by rw [hrun], ?_⟩
    rw [hrun, countUrl_append, countUrl_eq_zero store url h0, hone]

/-- Instance of the C1 theorem: a fresh submission of exUrl followed by a
second submission of the same URL, which fails with the duplicate error. -/
theorem create_submission_idempotent_instance :
    (create_submission ((create_submission [] [] (some exScraped) false exUrl none).1) []
        (some exScraped) false exUrl none).2 = .error dupErr := by
  have h := create_submission_idempotent [] exUrl exScraped exScraped none none (by decide)
  exact (h.1 ((create_submission [] [] (some exScraped) false exUrl none).1)
    (mkSubmission exScraped exUrl none) (by rfl)).2.1

/-- Claim C10: whenever create_submission raises — duplicate pre-check,
extraction failure, uniqueness violation at persist time, or an unexpected
persist error — the call's own session is rolled back and the committed
table is exactly the rows committed independently of the call: no row for
the submitted URL was added by this call. -/
theorem create_submission_error_rollback
    (store interleaved : List UnionWin) (scrape : Option ScrapedData)
    (persistGlitch : Bool) (url : String) (submitted_by : Option String) (e : SubErr)
    (h : (create_submission store interleaved scrape persistGlitch url submitted_by).2
        = .error e) :
    (create_submission store interleaved scrape persistGlitch url submitted_by).1
      = store ++ interleaved := by
  cases h1 : hasUrl store url <;> cases hsc : scrape <;>
    cases h2 : hasUrl (store ++ interleaved) url <;> cases hg : persistGlitch <;>
      simp_all [create_submission]

/-- Instance of the C10 theorem: a failed extraction leaves the store
unchanged. -/
theorem create_submission_error_rollback_instance :
    (create_submission [] [] none false exUrl none).1 = [] ++ [] :=
  create_submission_error_rollback [] [] none false exUrl none
    (.valueError "Failed to extract information from URL") (by rfl)

/-! # C6: ResultIngester parse and single repair -/

/-- Claim C6: extract_json_from_response attempts strict parsing; on success
the repairer never runs; on failure the repairer runs exactly once and the
repaired text is re-parsed; if the repaired text fails to parse, or the
repair call itself raises, the original parse error is the one propagated,
with no further repair attempts. -/
theorem extract_json_single_repair
    (parse : String → Except String (List WinData))
    (fix : String → Except String String) (json_text : String) :
    (extract_json_from_response parse fix json_text).2 ≤ 1 ∧
    (∀ wins, parse json_text = .ok wins →
        extract_json_from_response parse fix json_text = (.ok wins, 0)) ∧
    (∀ e, parse json_text = .error e →
        (extract_json_from_response parse fix json_text).2 = 1 ∧
        (∀ e2, fix json_text = .error e2 →
            (extract_json_from_response parse fix json_text).1 = .error e) ∧
        (∀ fixed e2, fix json_text = .ok fixed → parse fixed = .error e2 →
            (extract_json_from_response parse fix json_text).1 = .error e) ∧
        (∀ fixed wins, fix json_text = .ok fixed → parse fixed = .ok wins →
            (extract_json_from_response parse fix json_text).1 = .ok wins)) := by
  refine ⟨?_, ?_, ?_⟩
  · unfold extract_json_from_response
    cases hp : parse json_text with
    | ok wins => simp
    | error e =>
      cases hf : fix json_text with
      | error e2 => simp
      | ok fixed => cases hp2 : parse fixed <;> simp [hp2]
  · intro wins hw
    unfold extract_json_from_response
    rw [hw]
  · intro e he
    refine ⟨?_, ?_, ?_, ?_⟩
    · unfold extract_json_from_response
      cases hf : fix json_text with
      | error e2 => simp [he, hf]
      | ok fixed => cases hp2 : parse fixed <;> simp [he, hf, hp2]
    · intro e2 hf
      unfold extract_json_from_response
      simp [he, hf]
    · intro fixed e2 hf hp2
      unfold extract_json_from_response
      simp [he, hf, hp2]
    · intro fixed wins hf hp2
      unfold extract_json_from_response
      simp [he, hf, hp2]

/-- Instance of the C6 theorem: strict parse fails, the repaired text fails
again, and the original error is propagated after a single repair pass. -/
theorem extract_json_single_repair_instance :
    (extract_json_from_response
        (fun s => if s = "fixed" then .error "second" else .error "orig")
        (fun _ => .ok "fixed") "raw").1 = .error "orig" ∧
    (extract_json_from_response
        (fun s => if s = "fixed" then .error "second" else .error "orig")
        (fun _ => .ok "fixed") "raw").2 ≤ 1 := by
  have h := extract_json_single_repair
    (fun s => if s = "fixed" then .error "second" else .error "orig")
    (fun _ => .ok "fixed") "raw"
  exact ⟨(h.2.2 "orig" rfl).2.2.1 "fixed" "second" rfl rfl, h.1⟩

/-! # C4: Scheduler restart law -/

/-- Counterexample to claim C4: with the last search created at t = 21600
and a restart at now = 43200, start_scheduler schedules the next firing at
t + 12h = 64800, not at max(t + 12h, now + 12h) = 86400 as claimed. -/
theorem scheduler_restart_counterexample :
    start_scheduler_next_run
        (lastSearchCreatedAt
          [{ id := 1, status := .pending, response_id := none, date_range := "r",
             new_wins_found := 0, error_message := none, created_at := 21600 }]) 43200
      = 64800 ∧
    nextRunClaimedSpec
        (lastSearchCreatedAt
          [{ id := 1, status := .pending, response_id := none, date_range := "r",
             new_wins_found := 0, error_message := none, created_at := 21600 }]) 43200
      = 86400 ∧
    (64800 : Int) ≠ 86400 := by
  refine ⟨by rfl, by rfl, by decide⟩

/-- Claim C4 as amended: on startup with a prior request of latest
created_at T, the trigger first fires at T + 12h when that instant is still
in the future and at now + 12h otherwise; with no prior request it fires at
now + 12h; in every case strictly later than now, never immediately. -/
theorem scheduler_restart_amended (reqs : List SearchRequest) (now : Int) :
    start_scheduler_next_run (lastSearchCreatedAt reqs) now
      = nextRunAmendedSpec (lastSearchCreatedAt reqs) now ∧
    now < start_scheduler_next_run (lastSearchCreatedAt reqs) now := by
  cases h : lastSearchCreatedAt reqs with
  | none =>
    constructor
    · rfl
    · show now < now + searchInterval
      simp only [searchInterval]
      omega
  | some t =>
    simp only [start_scheduler_next_run, nextRunAmendedSpec, searchInterval]
    constructor
    · split <;> split <;> omega
    · split <;> omega

/-! # C5: save_wins_to_db batch counting -/

theorem check_dup_append_single (store : List UnionWin) (nw : UnionWin) (u : String)
    (hne : nw.url ≠ u) :
    check_duplicate_win (store ++ [nw]) u = check_duplicate_win store u := by
  simp [check_duplicate_win, hasUrl_append, hasUrl, hne]

/-- Counterexample to claim C5: a batch of two validated items sharing one
new URL has k = 0 urls already present, yet only one record is inserted and
reported — not N − k = 2. -/
theorem save_wins_counterexample :
    (save_wins_to_db [] [exWinA, exWinA]).2 = 1 ∧
    ([exWinA, exWinA].countP
        (fun w => check_duplicate_win ([] : List UnionWin) (winUrl w))) = 0 ∧
    (save_wins_to_db [] [exWinA, exWinA]).2 ≠
      [exWinA, exWinA].length -
        [exWinA, exWinA].countP
          (fun w => check_duplicate_win ([] : List UnionWin) (winUrl w)) := by
  refine ⟨by decide, by decide, by decide⟩

/-- Claim C5 as amended: for a list of N validated win items with pairwise
distinct URLs of which exactly k have URLs already persisted, save_wins_to_db
returns N − k and grows the table by exactly that count; items are committed
individually, so a duplicate anywhere in the batch never blocks the
insertion of subsequent items. -/
theorem save_wins_count (store : List UnionWin) (wins : List WinData)
    (hv : ∀ w ∈ wins, validate_win_data w = true)
    (hnd : (wins.map winUrl).Nodup) :
    (save_wins_to_db store wins).2
        = wins.length - wins.countP (fun w => check_duplicate_win store (winUrl w)) ∧
    (save_wins_to_db store wins).1.length
        = store.length + (save_wins_to_db store wins).2 := by
  induction wins generalizing store with
  | nil => simp [save_wins_to_db]
  | cons w rest ih =>
    have hvw : validate_win_data w = true := hv w (by simp)
    have hvrest : ∀ x ∈ rest, validate_win_data x = true :=
      fun x hx => hv x (by simp [hx])
    rw [List.map_cons, List.nodup_cons] at hnd
    obtain ⟨hwnotin, hndrest⟩ := hnd
    have hk := List.countP_le_length
      (p := fun x => check_duplicate_win store (winUrl x)) (l := rest)
    cases hdup : check_duplicate_win store (winUrl w) with
    | true =>
      have hrun : save_wins_to_db store (w :: rest) = save_wins_to_db store rest := by
        simp [save_wins_to_db, hvw, hdup]
      obtain ⟨ih1, ih2⟩ := ih store hvrest hndrest
      rw [hrun, List.countP_cons_of_pos _ _ (by simpa using hdup)]
      constructor
      · rw [ih1]
        simp only [List.length_cons]
        omega
      · exact ih2
    | false =>
      have hurl : (create_win_from_data w).url = winUrl w := rfl
      have hins : hasUrl store (create_win_from_data w).url = false := by
        rw [hurl]; simpa [check_duplicate_win] using hdup
      have hrun : save_wins_to_db store (w :: rest)
          = ((save_wins_to_db (store ++ [create_win_from_data w]) rest).1,
             (save_wins_to_db (store ++ [create_win_from_data w]) rest).2 + 1) := by
        simp [save_wins_to_db, hvw, hdup, hins]
      have hcongr : rest.countP
            (fun x => check_duplicate_win (store ++ [create_win_from_data w]) (winUrl x))
          = rest.countP (fun x => check_duplicate_win store (winUrl x)) := by
        apply List.countP_congr
        intro x hx
        have hne : (create_win_from_data w).url ≠ winUrl x := by
          rw [hurl]
          intro hcontra
          have hmem : winUrl w ∈ List.map winUrl rest := by
            rw [hcontra]; exact List.mem_map_of_mem winUrl hx
          exact hwnotin hmem
        rw [check_dup_append_single store (create_win_from_data w) (winUrl x) hne]
      obtain ⟨ih1, ih2⟩ := ih (store ++ [create_win_from_data w]) hvrest hndrest
      rw [hcongr] at ih1
      rw [hrun, List.countP_cons_of_neg _ _ (by simpa using hdup)]
      constructor
      · simp only [List.length_cons]
        omega
      · rw [ih2]
        simp only [List.length_append, List.length_cons, List.length_nil]
        omega

/-- Instance of the amended C5 theorem: two valid items, one of them already
persisted, insert and report exactly one new record. -/
theorem save_wins_count_instance :
    (save_wins_to_db [exRecB] [exWinA, exWinB]).2
      = [exWinA, exWinB].length -
        [exWinA, exWinB].countP (fun w => check_duplicate_win [exRecB] (winUrl w)) :=
  (save_wins_count [exRecB] [exWinA, exWinB] (by decide) (by decide)).1

/-! # C8: classifier ids outside the batch range are ignored -/

theorem selectByIds_mem (batch : List Candidate) (ids : List Int) (c : Candidate)
    (hc : c ∈ selectByIds batch ids) : c ∈ batch := by
  have key : ∀ (ids : List Int) (acc : List Candidate),
      c ∈ List.foldl (fun acc rid =>
        if 0 ≤ rid ∧ rid < (batch.length : Int) then
          acc ++ (batch[rid.toNat]?).toList
        else acc) acc ids → c ∈ acc ∨ c ∈ batch := by
    intro ids
    induction ids with
    | nil =>
      intro acc h
      exact Or.inl h
    | cons rid rest ih =>
      intro acc h
      rw [List.foldl_cons] at h
      rcases ih _ h with hmem | hb
      · by_cases hcond : 0 ≤ rid ∧ rid < (batch.length : Int)
        · rw [if_pos hcond] at hmem
          rcases List.mem_append.mp hmem with hacc | hopt
          · exact Or.inl hacc
          · right
            have hsome : batch[rid.toNat]? = some c := by
              cases hg : batch[rid.toNat]? with
              | none => rw [hg] at hopt; cases hopt
              | some x =>
                rw [hg] at hopt
                simp only [Option.toList_some, List.mem_singleton] at hopt
                subst hopt
                rfl
            exact List.getElem?_mem hsome
        · rw [if_neg hcond] at hmem
          exact Or.inl hmem
      · exact Or.inr hb
  rcases key ids [] hc with h | h
  · cases h
  · exact h

theorem filterBatchesAux_subset (classify : List Candidate → Except String (List Int)) :
    ∀ (fuel : Nat) (l : List Candidate) (c : Candidate),
      c ∈ filterBatchesAux classify fuel l → c ∈ l := by
  intro fuel
  induction fuel with
  | zero =>
    intro l c h
    cases l <;> simp [filterBatchesAux] at h
  | succ n ih =>
    intro l c h
    cases l with
    | nil => simp [filterBatchesAux] at h
    | cons a rest =>
      simp only [filterBatchesAux] at h
      rcases List.mem_append.mp h with h1 | h2
      · cases hcl : classify ((a :: rest).take batchSize) with
        | ok ids =>
          rw [hcl] at h1
          exact List.take_subset batchSize (a :: rest) (selectByIds_mem _ ids c h1)
        | error e =>
          rw [hcl] at h1
          cases h1
      · exact List.drop_subset batchSize (a :: rest) (ih _ c h2)

/-- Claim C8: every candidate selected by filter_candidates_with_llm belongs
to the batch that was actually sent — a relevant id outside the index range
of its batch is ignored, never causing an out-of-bounds access or an extra
candidate, for every possible classifier response. -/
theorem filter_candidates_subset (classify : List Candidate → Except String (List Int))
    (candidates : List Candidate) (c : Candidate)
    (hc : c ∈ filter_candidates_with_llm classify candidates) : c ∈ candidates :=
  filterBatchesAux_subset classify candidates.length candidates c hc

/-- Instance of the C8 theorem: a classifier answering with the out-of-range
ids 5 and -1 besides 0 still selects only candidates from the batch sent. -/
theorem filter_candidates_subset_instance :
    ({ url := "https://example.org/a", text := "Anchor text", context := "" } : Candidate)
      ∈ [({ url := "https://example.org/a", text := "Anchor text", context := "" } : Candidate),
         { url := "https://example.org/b", text := "Other text", context := "" }] :=
  filter_candidates_subset (fun _ => .ok [0, 5, -1]) _ _ (by decide)

/-! # C9: extract_candidates filtering -/

theorem extractLoop_sound (urljoin : String → String → String) (base_url : String) :
    ∀ (anchors : List Anchor) (seen : List String),
      (∀ c ∈ extractLoop urljoin base_url anchors seen,
         strStartsWith c.url "http" = true ∧
         containsSkipKeyword (strLower c.url) = false ∧
         5 ≤ c.text.length ∧
         c.url ∉ seen ∧
         ∃ a ∈ anchors, c.url = stripFragment (urljoin base_url a.href)) ∧
      ((extractLoop urljoin base_url anchors seen).map (fun c => c.url)).Nodup := by
  intro anchors
  induction anchors with
  | nil =>
    intro seen
    constructor
    · intro c hc
      simp [extractLoop] at hc
    · simp [extractLoop]
  | cons a rest ih =>
    intro seen
    simp only [extractLoop]
    by_cases h1 : stripFragment (urljoin base_url a.href) ∈ seen
    · rw [if_pos h1]
      refine ⟨fun c hc => ?_, (ih seen).2⟩
      obtain ⟨p1, p2, p3, p4, aa, haa, heq⟩ := (ih seen).1 c hc
      exact ⟨p1, p2, p3, p4, aa, List.mem_cons_of_mem a haa, heq⟩
    · rw [if_neg h1]
      by_cases h2 : strStartsWith (stripFragment (urljoin base_url a.href)) "http" = true
      · rw [if_neg (by simpa using h2)]
        by_cases h3 : containsSkipKeyword (strLower (stripFragment (urljoin base_url a.href))) = true
        · rw [if_pos h3]
          refine ⟨fun c hc => ?_, (ih seen).2⟩
          obtain ⟨p1, p2, p3, p4, aa, haa, heq⟩ := (ih seen).1 c hc
          exact ⟨p1, p2, p3, p4, aa, List.mem_cons_of_mem a haa, heq⟩
        · rw [if_neg h3]
          by_cases h4 : (anchorText a).length < 5
          · rw [if_pos h4]
            refine ⟨fun c hc => ?_, (ih seen).2⟩
            obtain ⟨p1, p2, p3, p4, aa, haa, heq⟩ := (ih seen).1 c hc
            exact ⟨p1, p2, p3, p4, aa, List.mem_cons_of_mem a haa, heq⟩
          · rw [if_neg h4]
            have ihcons := ih (stripFragment (urljoin base_url a.href) :: seen)
            constructor
            · intro c hc
              rcases List.mem_cons.mp hc with hhead | htail
              · subst hhead
                refine ⟨h2, by simpa using h3, ?_, h1, a, List.mem_cons_self a rest, rfl⟩
                show 5 ≤ (anchorText a).length
                omega
              · obtain ⟨p1, p2, p3, p4, aa, haa, heq⟩ := ihcons.1 c htail
                refine ⟨p1, p2, p3, fun hmem => p4 (List.mem_cons_of_mem _ hmem),
                  aa, List.mem_cons_of_mem a haa, heq⟩
            · rw [List.map_cons, List.nodup_cons]
              refine ⟨fun hmem => ?_, ihcons.2⟩
              obtain ⟨c, hcmem, hcurl⟩ := List.mem_map.mp hmem
              obtain ⟨_, _, _, p4, _⟩ := ihcons.1 c hcmem
              exact p4 (by rw [hcurl]; exact List.mem_cons_self _ _)
      · rw [if_pos (by simpa using h2)]
        refine ⟨fun c hc => ?_, (ih seen).2⟩
        obtain ⟨p1, p2, p3, p4, aa, haa, heq⟩ := (ih seen).1 c hc
        exact ⟨p1, p2, p3, p4, aa, List.mem_cons_of_mem a haa, heq⟩

/-- Claim C9: every candidate produced by extract_candidates is an anchor
resolved against the base URL to an absolute (http-prefixed) URL, its URL
contains no non-content path keyword, its resolved link text (with the
nested image alt/title fallback) is at least 5 characters, and no two
candidates share the same URL. -/
theorem extract_candidates_filtered (urljoin : String → String → String)
    (base_url : String) (anchors : List Anchor) :
    (∀ c ∈ extract_candidates urljoin base_url anchors,
       strStartsWith c.url "http" = true ∧
       containsSkipKeyword (strLower c.url) = false ∧
       5 ≤ c.text.length ∧
       ∃ a ∈ anchors, c.url = stripFragment (urljoin base_url a.href)) ∧
    ((extract_candidates urljoin base_url anchors).map (fun c => c.url)).Nodup := by
  have h := extractLoop_sound urljoin base_url anchors []
  refine ⟨fun c hc => ?_, h.2⟩
  obtain ⟨p1, p2, p3, _, hex⟩ := h.1 c hc
  exact ⟨p1, p2, p3, hex⟩

set_option maxRecDepth 2000 in
/-- Instance of the C9 theorem: a concrete page with one good anchor yields
a candidate whose URL is absolute. -/
theorem extract_candidates_filtered_instance :
    strStartsWith
      ({ url := "https://b.org/w1", text := "Union wins big",
         context := "ctx" } : Candidate).url "http" = true :=
  ((extract_candidates_filtered (fun _ h => h) "https://b.org" [exAnchor]).1
    _ (by decide)).1


theorem sweep_index_evolution (env : SweepEnv) (reqs : List SearchRequest)
    (i : Nat) (r : SearchRequest) (hi : reqs[i]? = some r) :
    ∃ r2, (sweep env reqs)[i]? = some r2 ∧
      r2.response_id.isSome = (r.response_id.isSome || claimedAt env reqs i) ∧
      (r2.status = .pending ↔ (r.status = .pending ∧ claimedAt env reqs i = false)) := by
  unfold sweep
  cases hd : claimDecision env reqs with
  | none =>
    have hclaim : claimedAt env reqs i = false := by
      unfold claimedAt
      rw [hd]
    have happly : applyClaim env reqs = reqs := by
      unfold applyClaim
      rw [hd]
    rw [happly, List.getElem?_map, hi]
    refine ⟨_, rfl, ?_, ?_⟩
    · rw [sweepMap_response_id, hclaim, Bool.or_false]
    · rw [hclaim, sweepMap_pending_iff]
      simp
  | some jr =>
    obtain ⟨j, rid⟩ := jr
    obtain ⟨p, hp, hpend, hfirst, hct⟩ := claimDecision_some env reqs j rid hd
    have hclaim : claimedAt env reqs i = (j == i) := by
      unfold claimedAt
      rw [hd]
    by_cases hji : j = i
    · subst hji
      have hpr : p = r := by
        rw [hi] at hp
        exact (Option.some.inj hp).symm
      subst hpr
      have happ := applyClaim_getElem?_claimed env reqs j rid p hd hp
      rw [List.getElem?_map, happ]
      have hne := pollStep_status_ne_pending env
        { p with status := .processing, response_id := some rid } rfl
      refine ⟨pollStep env { p with status := .processing, response_id := some rid },
        by simp, ?_, ?_⟩
      · rw [pollStep_response_id, hclaim]
        simp
      · rw [hclaim]
        simp [hne]
    · have hnotc : ∀ rid2, claimDecision env reqs ≠ some (i, rid2) := by
        intro rid2 heq
        have hcomb := hd.symm.trans heq
        simp only [Option.some.injEq, Prod.mk.injEq] at hcomb
        exact hji hcomb.1
      have happ := applyClaim_getElem?_ne env reqs i hnotc
      have hcf : claimedAt env reqs i = false := by
        rw [hclaim]
        simp [hji]
      rw [List.getElem?_map, happ, hi]
      refine ⟨_, rfl, ?_, ?_⟩
      · rw [sweepMap_response_id, hcf, Bool.or_false]
      · rw [hcf, sweepMap_pending_iff]
        simp

theorem sweep_preserves_good (env : SweepEnv) (reqs : List SearchRequest)
    (hgood : ∀ (i : Nat) (r : SearchRequest), reqs[i]? = some r → (r.response_id.isSome = true ↔ r.status ≠ .pending)) :
    ∀ (i : Nat) (r2 : SearchRequest), (sweep env reqs)[i]? = some r2 →
      (r2.response_id.isSome = true ↔ r2.status ≠ .pending) := by
  intro i r2 h2
  have hlt : i < reqs.length := by
    obtain ⟨hb, _⟩ := List.getElem?_eq_some.mp h2
    rwa [sweep_length] at hb
  have h0 : reqs[i]? = some reqs[i] := by
    rw [List.getElem?_eq_some]
    exact ⟨hlt, rfl⟩
  obtain ⟨r2x, h2x, hsome, hpend⟩ := sweep_index_evolution env reqs i reqs[i] h0
  have hr2 : r2x = r2 := by
    rw [h2x] at h2
    exact Option.some.inj h2
  rw [← hr2]
  have hg := hgood i reqs[i] h0
  cases hc : claimedAt env reqs i with
  | false =>
    rw [hc, Bool.or_false] at hsome
    rw [hc] at hpend
    have hpend2 : r2x.status = .pending ↔ reqs[i].status = .pending := by
      simpa using hpend
    rw [hsome, hg]
    exact not_congr hpend2.symm
  | true =>
    rw [hc, Bool.or_true] at hsome
    rw [hc] at hpend
    simp only [Bool.true_eq_false, and_false, iff_false] at hpend
    simp [hsome, hpend]

theorem runSweeps_handle_char :
    ∀ (envs : List SweepEnv) (reqs : List SearchRequest),
      (∀ (i : Nat) (r : SearchRequest), reqs[i]? = some r → (r.response_id.isSome = true ↔ r.status ≠ .pending)) →
      ∀ (i : Nat) (r0 rf : SearchRequest), reqs[i]? = some r0 → (runSweeps envs reqs)[i]? = some rf →
        (rf.response_id.isSome = true ↔
          (everProcessing envs reqs i = true ∨ r0.status ≠ .pending)) := by
  intro envs
  induction envs with
  | nil =>
    intro reqs hgood i r0 rf h0 hf
    simp only [runSweeps] at hf
    rw [h0] at hf
    have hrf : rf = r0 := (Option.some.inj hf).symm
    rw [hrf]
    have hg := hgood i r0 h0
    have hev : everProcessing ([] : List SweepEnv) reqs i = isProcessingAt reqs i := rfl
    have hip : isProcessingAt reqs i = (r0.status == .processing) := by
      unfold isProcessingAt
      rw [h0]
    rw [hev, hip, hg]
    constructor
    · intro hnp
      exact Or.inr hnp
    · rintro (hp | hnp)
      · intro hpend
        rw [hpend] at hp
        exact absurd hp (by decide)
      · exact hnp
  | cons env rest ih =>
    intro reqs hgood i r0 rf h0 hf
    obtain ⟨r1, h1, hsome1, hpend1⟩ := sweep_index_evolution env reqs i r0 h0
    have hgood1 := sweep_preserves_good env reqs hgood
    have hmain := ih (sweep env reqs) hgood1 i r1 rf h1 (by simpa [runSweeps] using hf)
    rw [hmain]
    have hev : everProcessing (env :: rest) reqs i
        = (isProcessingAt reqs i || claimedAt env reqs i
            || everProcessing rest (sweep env reqs) i) := rfl
    have hip : isProcessingAt reqs i = (r0.status == .processing) := by
      unfold isProcessingAt
      rw [h0]
    rw [hev, hip]
    have hr1 : r1.status ≠ .pending ↔ (r0.status ≠ .pending ∨ claimedAt env reqs i = true) := by
      rw [not_iff_comm, hpend1]
      cases hc : claimedAt env reqs i <;> simp
    rw [hr1]
    cases hc : claimedAt env reqs i <;>
      cases hev2 : everProcessing rest (sweep env reqs) i <;>
        by_cases hp : r0.status = .pending <;>
          simp [hp, hc, hev2]

theorem handleInvariant_of_good (reqs : List SearchRequest)
    (hgood : ∀ (i : Nat) (r : SearchRequest), reqs[i]? = some r → (r.response_id.isSome = true ↔ r.status ≠ .pending)) :
    handleInvariant reqs = true := by
  rw [handleInvariant, List.all_eq_true]
  intro r hr
  obtain ⟨i, hi, he⟩ := List.mem_iff_getElem.mp hr
  have hg := hgood i r (by rw [List.getElem?_eq_some]; exact ⟨hi, he⟩)
  by_cases hs : r.status = .processing
  · have hsome : r.response_id.isSome = true := hg.mpr (by rw [hs]; decide)
    simp [hsome]
  · simp [hs]

theorem alwaysInv_of_good :
    ∀ (envs : List SweepEnv) (reqs : List SearchRequest),
      (∀ (i : Nat) (r : SearchRequest), reqs[i]? = some r → (r.response_id.isSome = true ↔ r.status ≠ .pending)) →
      alwaysHandleInvariant envs reqs = true := by
  intro envs
  induction envs with
  | nil =>
    intro reqs hgood
    exact handleInvariant_of_good reqs hgood
  | cons env rest ih =>
    intro reqs hgood
    have h1 := handleInvariant_of_good reqs hgood
    have h2 := ih (sweep env reqs) (sweep_preserves_good env reqs hgood)
    simp only [alwaysHandleInvariant, h1, h2, Bool.and_self]

/-! # C2, C3 and C7: the orchestrator state machine -/

/-- Claim C2: starting from freshly created requests (status pending, null
handle), over any run of orchestrator sweeps under arbitrary external
behaviour, no reachable state has a request in status processing with a null
handle, and a request's external task handle is non-null exactly when the
request has ever entered processing — the claim step writes handle and
status together in one update, and a failed task creation writes neither. -/
theorem searchrequest_handle_invariant (envs : List SweepEnv) (reqs : List SearchRequest)
    (hinit : ∀ r ∈ reqs, r.status = .pending ∧ r.response_id = none) :
    alwaysHandleInvariant envs reqs = true ∧
    ∀ (i : Nat) (rf : SearchRequest), (runSweeps envs reqs)[i]? = some rf →
      (rf.response_id.isSome = true ↔ everProcessing envs reqs i = true) := by
  have hgood : ∀ (i : Nat) (r : SearchRequest), reqs[i]? = some r →
      (r.response_id.isSome = true ↔ r.status ≠ .pending) := by
    intro i r hi
    obtain ⟨h1, h2⟩ := hinit r (List.getElem?_mem hi)
    rw [h1, h2]
    simp
  constructor
  · exact alwaysInv_of_good envs reqs hgood
  · intro i rf hf
    have hlt : i < reqs.length := by
      obtain ⟨hb, _⟩ := List.getElem?_eq_some.mp hf
      rwa [runSweeps_length] at hb
    have h0 : reqs[i]? = some reqs[i] := by
      rw [List.getElem?_eq_some]
      exact ⟨hlt, rfl⟩
    have hchar := runSweeps_handle_char envs reqs hgood i reqs[i] rf h0 hf
    obtain ⟨hp, _⟩ := hinit reqs[i] (List.getElem?_mem h0)
    rw [hchar]
    constructor
    · rintro (hev | hnp)
      · exact hev
      · exact absurd hp hnp
    · exact Or.inl

/-- Instance of the C2 theorem: one sweep that claims a fresh pending
request keeps the processing-implies-handle invariant at every boundary. -/
theorem searchrequest_handle_invariant_instance :
    alwaysHandleInvariant [exEnvClaim] [exReqPending] = true :=
  (searchrequest_handle_invariant [exEnvClaim] [exReqPending] (by decide)).1

theorem timeoutMessage_ne_empty (elapsed : Int) : timeoutMessage elapsed ≠ "" := by
  unfold timeoutMessage
  intro h
  have hlen := congrArg String.length h
  rw [String.length_append] at hlen
  have h19 : ("Task timeout after ").length = 19 := by decide
  have h0 : ("" : String).length = 0 := rfl
  rw [h19, h0] at hlen
  omega

/-- Claim C3: a request in status processing with a non-null handle whose
age exceeds the 12-hour stuck-task bound is set to failed with the
timeout-tagged message by the next sweep, for every possible external
behaviour (no poll result can prevent it), and the message carries the
"Task timeout" tag. -/
theorem sweep_timeout_forces_failed (env : SweepEnv) (reqs : List SearchRequest)
    (i : Nat) (r : SearchRequest) (hi : reqs[i]? = some r)
    (hst : r.status = .processing) (hh : r.response_id ≠ none)
    (ht : stuckTaskBound < env.now - r.created_at) :
    (sweep env reqs)[i]?
      = some (update_request_status r .failed 0
          (some (timeoutMessage (env.now - r.created_at)))) ∧
    (update_request_status r .failed 0
        (some (timeoutMessage (env.now - r.created_at)))).status = .failed ∧
    (update_request_status r .failed 0
        (some (timeoutMessage (env.now - r.created_at)))).error_message
      = some (timeoutMessage (env.now - r.created_at)) ∧
    timeoutMessage (env.now - r.created_at)
      = "Task timeout after "
          ++ (toString (env.now - r.created_at) ++ ". OpenAI response may have failed.") := by
  have hnotclaim : ∀ rid, claimDecision env reqs ≠ some (i, rid) := by
    intro rid heq
    obtain ⟨p, hp, hpend, _, _⟩ := claimDecision_some env reqs i rid heq
    rw [hi] at hp
    rw [← Option.some.inj hp] at hpend
    rw [hst] at hpend
    exact SStatus.noConfusion hpend
  have happ := applyClaim_getElem?_ne env reqs i hnotclaim
  refine ⟨?_, update_request_status_status .., ?_, rfl⟩
  · unfold sweep
    rw [List.getElem?_map, happ, hi]
    show some (if r.status = .processing ∧ r.response_id ≠ none then pollStep env r else r) = _
    rw [if_pos ⟨hst, hh⟩]
    unfold pollStep
    rw [if_pos ht]
  · unfold update_request_status
    simp only []
    rw [if_neg (timeoutMessage_ne_empty (env.now - r.created_at))]

/-- Instance of the C3 theorem: a processing request created at time 0 and
swept at time 100000 (past the 43200-second bound) is timed out to failed. -/
theorem sweep_timeout_instance :
    (sweep exEnvPoll [exReqStuck])[0]?
      = some (update_request_status exReqStuck .failed 0
          (some (timeoutMessage (exEnvPoll.now - exReqStuck.created_at)))) :=
  (sweep_timeout_forces_failed exEnvPoll [exReqStuck] 0 exReqStuck (by simp) rfl
    (by decide) (by decide)).1

/-- Claim C7: the claim step fetches at most one pending request — the first
pending row in insertion order, which for created_at-monotone tables (rows
are appended as created) is the oldest pending request: only that row can be
modified; the claimed row is pending with minimal created_at among pending
rows; and when creating the external task fails, the sweep leaves the
fetched pending row exactly as it was, to be retried on a later sweep. -/
theorem claim_step_single_oldest (env : SweepEnv) (reqs : List SearchRequest)
    (hmono : List.Pairwise (fun x y => x ≤ y) (reqs.map (fun r => r.created_at))) :
    (∀ i, (∀ rid, claimDecision env reqs ≠ some (i, rid)) →
        (applyClaim env reqs)[i]? = reqs[i]?) ∧
    (∀ j rid, claimDecision env reqs = some (j, rid) →
        ∃ p, reqs[j]? = some p ∧ p.status = .pending ∧
          ∀ (k : Nat) (q : SearchRequest), reqs[k]? = some q → q.status = .pending →
            p.created_at ≤ q.created_at) ∧
    (∀ j, firstPendingIdx reqs = some j → claimDecision env reqs = none →
        (sweep env reqs)[j]? = reqs[j]?) := by
  refine ⟨fun i h => applyClaim_getElem?_ne env reqs i h, ?_, ?_⟩
  · intro j rid hd
    obtain ⟨p, hp, hpend, hfirst, _⟩ := claimDecision_some env reqs j rid hd
    obtain ⟨p2, hp2, _, hmin⟩ := firstPendingIdx_spec reqs j hfirst
    refine ⟨p, hp, hpend, ?_⟩
    intro k q hq hqpend
    have hjk : j ≤ k := by
      by_contra hlt
      push_neg at hlt
      exact hmin k hlt q hq hqpend
    obtain ⟨hjb, hje⟩ := List.getElem?_eq_some.mp hp
    obtain ⟨hkb, hke⟩ := List.getElem?_eq_some.mp hq
    by_cases hjk2 : j = k
    · subst hjk2
      rw [hp] at hq
      rw [Option.some.inj hq]
    · have hjlt : j < k := lt_of_le_of_ne hjk hjk2
      have hpair := List.pairwise_iff_getElem.mp hmono j k
        (by simpa using hjb) (by simpa using hkb) hjlt
      rw [List.getElem_map, List.getElem_map] at hpair
      rw [← hje, ← hke]
      exact hpair
  · intro j hfirst hnone
    obtain ⟨p, hp, hpend, _⟩ := firstPendingIdx_spec reqs j hfirst
    have happly : applyClaim env reqs = reqs := by
      unfold applyClaim
      rw [hnone]
    unfold sweep
    rw [happly, List.getElem?_map, hp]
    show some (if p.status = .processing ∧ p.response_id ≠ none then pollStep env p else p)
      = some p
    rw [if_neg ?hng]
    case hng =>
      rintro ⟨h1, _⟩
      rw [hpend] at h1
      exact SStatus.noConfusion h1

/-- Instance of the C7 theorem: with two pending requests and a failing task
creation, the sweep leaves the first (oldest) pending request unchanged. -/
theorem claim_step_single_oldest_instance :
    (sweep exEnvPoll [exReqPending, exReqPending2])[0]?
      = ([exReqPending, exReqPending2] : List SearchRequest)[0]? :=
  (claim_step_single_oldest exEnvPoll [exReqPending, exReqPending2]
      (by decide)).2.2 0 rfl rfl

end UnionWins
